import Mathlib

/-!
# crynux-node `imhash`: the perceptual-hash binding `imhash_lib.go`

A shallow embedding of `src/imhash/imhash_lib.go`:

* `imagePHash` (lines 21-35) decodes an image, asks `goimagehash` for its
  perceptual hash and renders the 64-bit value as `"0x"` followed by hex digits;
* `getPHash` (lines 38-70) is the CPython entry point around it.

Go values are modelled by plain data: a byte is a `Nat` reduced modulo `256`, a
`uint64` is a `Nat` reduced modulo `2 ^ 64`, an `int` is an `Int`, a `[]byte` is a
`List Nat`, a Go `string` holding UTF-8 text is a `String`.  A Go `(T, error)` result is
a pair whose second component is `none` for the `nil` error.  Effects (calls to the
external collaborators and the state they keep, the CPython heap, the C heap) are
threaded through an explicit `World`.
-/

namespace Imhash

/-! ## Go values -/

/-- Modelled from the spec: the two error kinds of spec section 7.  `input` is the
`InputError` / `DecodeError` kind (the reference could not be opened or decoded),
`computation` the `ComputationError` / `ComputeError` kind.  In Go the kind of an
`error` is the dynamic value behind the interface; `imhash_lib.go` never inspects it. -/
inductive ErrKind where
  | input
  | computation
deriving DecidableEq, Repr

/-- A Go `error` value: its kind and the text its `Error()` method returns. -/
structure GoError where
  kind : ErrKind
  text : String
deriving DecidableEq, Repr

/-- The method `Error() string` of a Go `error`. -/
def GoError.Error (e : GoError) : String := e.text

/-- An `io.Reader` (here always the opened `*os.File`): the bytes it will yield. -/
abbrev Reader := List Nat

/-- An `image.Image` as produced by `image.Decode`: its bounds and its colour samples
in row-major order (one `(r, g, b)` triple per pixel). -/
structure Image where
  width : Nat
  height : Nat
  samples : List (Nat × Nat × Nat)
deriving DecidableEq, Repr

/-- The `*goimagehash.ImageHash` returned by `goimagehash.PerceptionHash`: the hash
value it stores. -/
structure ImageHash where
  hash : Nat
deriving DecidableEq, Repr

/-- The method `GetHash() uint64`: the stored value as an unsigned 64-bit integer. -/
def ImageHash.GetHash (h : ImageHash) : Nat := h.hash % 2 ^ 64

/-- Modelled from the spec: the method `Bits() int` of `goimagehash.ImageHash`, whose
body is not under `src/`.  Spec section 3: "the fingerprint length is constant
(64 bits) regardless of input image dimensions". -/
def ImageHash.Bits (_ : ImageHash) : Int := 64

/-- How a Go call ends: it returns a value, or it panics (run-time error). -/
inductive Outcome (α : Type) where
  | ret (a : α)
  | panic (msg : String)
deriving DecidableEq, Repr

/-! ## The world: external calls, the CPython heap, the C heap -/

/-- The value held by a CPython object, as far as `getPHash` touches objects.  A `str`
object is its sequence of code points, which may contain lone surrogates
(`0xD800`-`0xDFFF`, as in file names decoded with `surrogateescape`); a `bytes` object
holding UTF-8 text is modelled by that text. -/
inductive PyVal where
  | unicode (codePoints : List Nat)
  | bytes (s : String)
  | other
deriving DecidableEq, Repr

/-- A CPython heap cell: reference count and value.  An object whose count has
dropped to `0` has been deallocated. -/
structure PyObject where
  ob_refcnt : Nat
  val : PyVal
deriving DecidableEq, Repr

/-- The exception types that can be pending while `getPHash` runs: the one it sets
itself, the one the UTF-8 codec sets, and a stand-in for those of the argument parser. -/
inductive PyExc where
  | PyExc_RuntimeError
  | PyExc_UnicodeEncodeError
  | PyExc_TypeError
deriving DecidableEq, Repr

/-- The calls to external collaborators that the embedding records, in program order. -/
inductive Event where
  | decode (file : Reader)
  | hash (img : Image)
  | close (file : Reader)
  | decref (addr : Nat)
deriving DecidableEq, Repr

/-- The state outside the Go function: the record of external calls, the CPython
heap (an object's address is its index), the CPython error indicator (exception type
and address of the exception value), the number of live `malloc` blocks, and the
package-level state of the Go libraries (`image`, `goimagehash`: registered formats,
pooled buffers), which their functions may read and update. -/
structure World where
  trace : List Event
  heap : List PyObject
  err : Option (PyExc × Nat)
  cLive : Nat
  lib : Nat
deriving DecidableEq, Repr

/-- Append one external call to the record. -/
def World.record (w : World) (e : Event) : World :=
  { w with trace := w.trace ++ [e] }

/-! ## Go built-ins and standard library used by `imagePHash` -/

/-- The conversion `byte(x)`: keep the low 8 bits. -/
def byte (x : Nat) : Nat := x % 256

/-- The built-in `make([]byte, n)`: a zeroed slice of length `n`; a negative `n`
panics (`none`). -/
def make (n : Int) : Option (List Nat) :=
  if n < 0 then none else some (List.replicate n.toNat 0)

/-- The Go standard library's `binary.BigEndian.PutUint64(b, v)`:
`_ = b[7]` (panics, `none`, when `len(b) < 8`), then `b[0] = byte(v >> 56)`, ...,
`b[7] = byte(v)`.  The slice is updated in place; the embedding returns it. -/
def binary.BigEndian.PutUint64 (b : List Nat) (v : Nat) : Option (List Nat) :=
  if b.length ≤ 7 then none
  else
    let b := b.set 0 (byte (v >>> 56))
    let b := b.set 1 (byte (v >>> 48))
    let b := b.set 2 (byte (v >>> 40))
    let b := b.set 3 (byte (v >>> 32))
    let b := b.set 4 (byte (v >>> 24))
    let b := b.set 5 (byte (v >>> 16))
    let b := b.set 6 (byte (v >>> 8))
    let b := b.set 7 (byte v)
    some b

/-- The constant `hextable = "0123456789abcdef"` of Go's `encoding/hex`. -/
def hex.hextable : List Char := "0123456789abcdef".toList

/-- The Go standard library's `hex.EncodeToString(src)`: for each byte `v` of `src`
the two characters `hextable[v>>4]` and `hextable[v&0x0f]`. -/
def hex.EncodeToString (src : List Nat) : String :=
  String.mk (src.flatMap fun v =>
    [hex.hextable.getD (v >>> 4) '?', hex.hextable.getD (v &&& 0x0f) '?'])

/-! ## `imagePHash` (imhash_lib.go, lines 21-35) -/

/-- A collaborator that is a function of its argument and leaves the library state
alone. -/
def pureCall {α β : Type} (f : α → β) (s : Nat) (a : α) : β × Nat := (f a, s)

/-- The function `imagePHash(file io.Reader) (string, error)`.

`Decode` stands for `image.Decode` (first and third result) and `PerceptionHash` for
`goimagehash.PerceptionHash`; both are external to the repository.  They receive the
library state and return the new one, so that a collaborator whose result depends on
earlier calls can be expressed.  Each call to them is recorded in the world. -/
def imagePHash (Decode : Nat → Reader → Except GoError Image × Nat)
    (PerceptionHash : Nat → Image → Except GoError ImageHash × Nat)
    (file : Reader) (w : World) : Outcome (String × Option GoError) × World :=
  -- image, _, err := image.Decode(file)
  let w := w.record (.decode file)
  match Decode w.lib file with
  | (.error err, lib) => (.ret ("", some err), { w with lib := lib })
  | (.ok image, lib) =>
    -- pHash, err := goimagehash.PerceptionHash(image)
    let w := { w with lib := lib }.record (.hash image)
    match PerceptionHash w.lib image with
    | (.error err, lib) => (.ret ("", some err), { w with lib := lib })
    | (.ok pHash, lib) =>
      let w := { w with lib := lib }
      -- bs := make([]byte, pHash.Bits()/8)
      match make (pHash.Bits.tdiv 8) with
      | none => (.panic "makeslice: len out of range", w)
      | some bs =>
        -- binary.BigEndian.PutUint64(bs, pHash.GetHash())
        match binary.BigEndian.PutUint64 bs pHash.GetHash with
        | none => (.panic "index out of range [7]", w)
        | some bs =>
          -- return "0x" + hex.EncodeToString(bs), nil
          (.ret ("0x" ++ hex.EncodeToString bs, none), w)

/-! ## The CPython and cgo calls made by `getPHash`

The CPython C API and the cgo helpers are external to the repository.  They are
modelled by their documented contracts.  A C buffer (`*C.char`) is modelled by the
characters stored in it before its terminating NUL; a reader of a C string sees the
characters before the first NUL (`cText`).  Allocation is assumed to succeed. -/

/-- The text a C string holds for its readers: the characters before the first NUL. -/
def cText (buf : String) : String :=
  String.mk (buf.data.takeWhile fun ch => ch != Char.ofNat 0)

/-- The code points of a text. -/
def codePoints (s : String) : List Nat := s.data.map Char.toNat

/-- A code point that UTF-8 can encode: a Unicode scalar value (not a surrogate). -/
def isScalarValue (n : Nat) : Bool :=
  n < 0xD800 || (0xDFFF < n && n < 0x110000)

/-- The strict UTF-8 codec on a sequence of code points: the encoded text, or nothing
when a code point is a lone surrogate (`UnicodeEncodeError`). -/
def utf8Text (cps : List Nat) : Option String :=
  if cps.all isScalarValue then some (String.mk (cps.map Char.ofNat)) else none

/-- The call `C.PyUnicode_AsUTF8String(obj)`: for a `str` object that the UTF-8 codec
can encode, a new `bytes` object holding the encoding, returned as a new reference
(count `1`); otherwise `NULL` (`none`) with an exception set. -/
def PyUnicode_AsUTF8String (w : World) (obj : Nat) : Option Nat × World :=
  match w.heap[obj]? with
  | some ⟨_, .unicode cps⟩ =>
    match utf8Text cps with
    | some s => (some w.heap.length, { w with heap := w.heap ++ [⟨1, .bytes s⟩] })
    | none =>
      (none, { w with
        heap := w.heap ++ [⟨1, .other⟩]
        err := some (.PyExc_UnicodeEncodeError, w.heap.length) })
  | _ =>
    (none, { w with
      heap := w.heap ++ [⟨1, .other⟩]
      err := some (.PyExc_TypeError, w.heap.length) })

/-- The call `C.PyBytes_AsString(o)`: a pointer to the internal buffer of a `bytes`
object, `NULL` (`none`) when `o` is not a `bytes` object. -/
def PyBytes_AsString (w : World) (o : Nat) : Option String :=
  match w.heap[o]? with
  | some ⟨_, .bytes s⟩ => some s
  | _ => none

/-- The cgo helper `C.GoString(p)`: a Go copy of the C string at `p`, which ends at the
first NUL; `""` for `NULL`. -/
def GoString (p : Option String) : String :=
  match p with
  | some buf => cText buf
  | none => ""

/-- The cgo helper `C.CString(s)`: a `malloc`ed buffer holding the bytes of the Go
string, followed by a NUL. -/
def CString (w : World) (s : String) : String × World :=
  (s, { w with cLive := w.cLive + 1 })

/-- The call `C.free(p)` on a block obtained from `C.CString`. -/
def free (w : World) (_p : String) : World :=
  { w with cLive := w.cLive - 1 }

/-- The call `C.PyUnicode_FromString(p)`: a new `str` object holding the text of the C
string at `p` (up to its first NUL), returned as a new reference. -/
def PyUnicode_FromString (w : World) (p : String) : Nat × World :=
  (w.heap.length, { w with heap := w.heap ++ [⟨1, .unicode (codePoints (cText p))⟩] })

/-- Increment the reference count of the object at `o`. -/
def Py_IncRef (w : World) (o : Nat) : World :=
  { w with heap := w.heap.modify (fun c => { c with ob_refcnt := c.ob_refcnt + 1 }) o }

/-- The call `C.Py_DecRef(o)`: release one reference to the object at `o`. -/
def Py_DecRef (w : World) (o : Nat) : World :=
  { w with
    heap := w.heap.modify (fun c => { c with ob_refcnt := c.ob_refcnt - 1 }) o
    trace := w.trace ++ [.decref o] }

/-- The call `C.PyErr_SetObject(type, value)`: set the error indicator; the indicator
takes its own reference to `value` (the caller's reference is not stolen). -/
def PyErr_SetObject (w : World) (type : PyExc) (value : Nat) : World :=
  { Py_IncRef w value with err := some (type, value) }

/-- The method `file.Close()` of the opened file. -/
def Close (w : World) (file : Reader) : World := w.record (.close file)

/-! ## `getPHash` (imhash_lib.go, lines 38-70) -/

/-- The exported function `getPHash(self, args *C.PyObject) *C.PyObject`.

`PyArg_ParseTuple_U` is the C helper declared in the cgo preamble (line 5), whose body
is not under `src/`: it is a parameter that returns the new world and, when its `int`
result is non-zero, the object stored through its second argument.  `Open` stands for
`os.Open`.  The result is `none` for a `nil` (`NULL`) return.  The result of
`PyUnicode_AsUTF8String` is passed on unchecked: when it is `NULL`,
`PyBytes_AsString` dereferences it and the process aborts. -/
def getPHash (PyArg_ParseTuple_U : World → Nat → World × Option Nat)
    (Open : String → Except GoError Reader)
    (Decode : Nat → Reader → Except GoError Image × Nat)
    (PerceptionHash : Nat → Image → Except GoError ImageHash × Nat)
    (args : Nat) (w : World) : Outcome (Option Nat) × World :=
  -- if C.PyArg_ParseTuple_U(args, &obj) == 0 { return nil }
  match PyArg_ParseTuple_U w args with
  | (w, none) => (.ret none, w)
  | (w, some obj) =>
    -- pyFileBytes := C.PyUnicode_AsUTF8String(obj)
    match PyUnicode_AsUTF8String w obj with
    | (none, w) => (.panic "SIGSEGV: PyBytes_AsString(NULL)", w)
    | (some pyFileBytes, w) =>
      -- cFilename := C.PyBytes_AsString(pyFileBytes)
      let cFilename := PyBytes_AsString w pyFileBytes
      -- filename := C.GoString(cFilename)
      let filename := GoString cFilename
      -- file, err := os.Open(filename)
      match Open filename with
      | .error err =>
        let (cErrstr, w) := CString w err.Error
        let (pyErrStr, w) := PyUnicode_FromString w cErrstr
        let w := PyErr_SetObject w .PyExc_RuntimeError pyErrStr
        let w := free w cErrstr
        (.ret none, w)
      | .ok file =>
        -- defer file.Close()
        -- hash, err := imagePHash(file)
        match imagePHash Decode PerceptionHash file w with
        | (.panic msg, w) => (.panic msg, Close w file)
        | (.ret (_, some err), w) =>
          let (cErrstr, w) := CString w err.Error
          let (pyErrStr, w) := PyUnicode_FromString w cErrstr
          let w := PyErr_SetObject w .PyExc_RuntimeError pyErrStr
          let w := free w cErrstr
          (.ret none, Close w file)
        | (.ret (hash, none), w) =>
          let (cRetstr, w) := CString w hash
          let (ret, w) := PyUnicode_FromString w cRetstr
          let w := free w cRetstr
          let w := Py_DecRef w pyFileBytes
          (.ret (some ret), Close w file)

/-- The reference count of the object at address `o` (`0` when there is none). -/
def World.refcnt (w : World) (o : Nat) : Nat :=
  (w.heap[o]?.map PyObject.ob_refcnt).getD 0

/-- The code points of the `str` object at address `o`, if there is one. -/
def World.strAt (w : World) (o : Nat) : Option (List Nat) :=
  match w.heap[o]? with
  | some ⟨_, .unicode cps⟩ => some cps
  | _ => none

/-- The pending exception: its type and the code points of its value when that is a
`str`, if an error is set. -/
def World.pending (w : World) : Option (PyExc × Option (List Nat)) :=
  w.err.map fun e => (e.1, w.strAt e.2)

/-- How often `Py_DecRef` was called on the object at address `o`. -/
def World.releases (w : World) (o : Nat) : Nat :=
  w.trace.count (.decref o)

/-! ## The perceptual hasher, from the specification

`goimagehash.PerceptionHash` is a dependency whose source is not under `src/`.  For
the claims about what the hasher computes it is modelled from spec section 4.1.
Steps 4-6 only compare coefficients with their median and are stated over any
linearly ordered field `K` (executable over `ℚ`); steps 1-3 are stated over `ℝ`,
where the cosine basis of the DCT lives. -/

/-- Modelled from the spec: step 5 of spec section 4.1, "compute the median of the
extracted coefficients": the middle element of the sorted list, the mean of the two
middle elements for an even count. -/
def median {K : Type} [LinearOrderedField K] (xs : List K) : K :=
  let s := xs.insertionSort (· ≤ ·)
  if s.length % 2 = 1 then s.getD (s.length / 2) 0
  else (s.getD (s.length / 2 - 1) 0 + s.getD (s.length / 2) 0) / 2

/-- Modelled from the spec: the positions of step 4 of spec section 4.1, "an 8×8 block
of low-frequency coefficients, excluding the [0,0] DC coefficient", in row-major
order: rows 1 to 8 and columns 1 to 8 of the frequency matrix, the 8×8 block next to
the DC term (the block of the pHash algorithm the spec follows).  It has 64 positions,
one per bit of the fingerprint. -/
def lowFrequencyBlock : List (Nat × Nat) :=
  (List.range 8).flatMap fun r => (List.range 8).map fun c => (1 + r, 1 + c)

/-- Modelled from the spec: step 4 of spec section 4.1, the coefficients of the
frequency matrix `F` at the positions of the block. -/
def extract {K : Type} (F : Nat → Nat → K) : List K :=
  lowFrequencyBlock.map fun p => F p.1 p.2

/-- Modelled from the spec: step 6 of spec section 4.1, one bit per coefficient, `1`
if the coefficient is strictly greater than the median, else `0`, concatenated in
the order of the coefficients (first coefficient in the most significant place). -/
def threshold {K : Type} [LinearOrderedField K] (coeffs : List K) : Nat :=
  coeffs.foldl (fun acc c => 2 * acc + if median coeffs < c then 1 else 0) 0

/-- Modelled from the spec: the contract of spec section 4.1 for
`goimagehash.PerceptionHash`, whose body is not under `src/`: a `ComputeError` kind
for a degenerate grid (zero width or height), else the fingerprint of steps 4-6
applied to the frequency matrix `freq img` of steps 1-3. -/
def PerceptionHash {K : Type} [LinearOrderedField K] (freq : Image → Nat → Nat → K)
    (img : Image) : Except GoError ImageHash :=
  if img.width = 0 ∨ img.height = 0 then
    .error ⟨.computation, "could not compute hash"⟩
  else
    .ok ⟨threshold (extract (freq img))⟩

/-! ### Steps 1-3 of the specification: luminance, resize, DCT -/

/-- The sample of the image at column `x`, row `y` (row-major sample list). -/
def pixel (img : Image) (x y : Nat) : Nat × Nat × Nat :=
  img.samples.getD (y * img.width + x) (0, 0, 0)

/-- Modelled from the spec: the "standard weighted RGB-to-gray conversion"
`0.299R + 0.587G + 0.114B` of spec section 4.1, step 2. -/
noncomputable def luminance (s : Nat × Nat × Nat) : ℝ :=
  0.299 * (s.1 : ℝ) + 0.587 * (s.2.1 : ℝ) + 0.114 * (s.2.2 : ℝ)

/-- Linear interpolation between `a` (at `t = 0`) and `b` (at `t = 1`). -/
noncomputable def lerp (t a b : ℝ) : ℝ := (1 - t) * a + t * b

/-- The position in a source axis of `n` samples that output index `i` of 32 samples
(at their centres), not left of the first sample. -/
noncomputable def sourceCoord (n i : Nat) : ℝ :=
  max 0 (((i : ℝ) + 1 / 2) * (n : ℝ) / 32 - 1 / 2)

/-- Modelled from the spec: step 1 of spec section 4.1, the luminance matrix resized
"to a fixed small square (conventionally 32×32)" by bilinear resampling: entry at row
`r`, column `c` interpolates the four source samples around the source position,
indices being kept inside the image. -/
noncomputable def resized (img : Image) (r c : Nat) : ℝ :=
  let sx := sourceCoord img.width c
  let sy := sourceCoord img.height r
  let x₀ := min ⌊sx⌋₊ (img.width - 1)
  let x₁ := min (⌊sx⌋₊ + 1) (img.width - 1)
  let y₀ := min ⌊sy⌋₊ (img.height - 1)
  let y₁ := min (⌊sy⌋₊ + 1) (img.height - 1)
  lerp (sy - ⌊sy⌋₊)
    (lerp (sx - ⌊sx⌋₊) (luminance (pixel img x₀ y₀)) (luminance (pixel img x₁ y₀)))
    (lerp (sx - ⌊sx⌋₊) (luminance (pixel img x₀ y₁)) (luminance (pixel img x₁ y₁)))

/-- Modelled from the spec: step 3 of spec section 4.1, the 2D DCT-II of a 32×32
matrix: the coefficient at row `u`, column `v` is the sum over all entries of the
entry times `cos (π (2y+1) u / 64) * cos (π (2x+1) v / 64)`. -/
noncomputable def dct (M : Nat → Nat → ℝ) (u v : Nat) : ℝ :=
  Finset.sum (Finset.range 32) fun y => Finset.sum (Finset.range 32) fun x =>
    M y x * (Real.cos (Real.pi * (2 * (y : ℝ) + 1) * (u : ℝ) / 64) *
      Real.cos (Real.pi * (2 * (x : ℝ) + 1) * (v : ℝ) / 64))

/-- Modelled from the spec: the frequency matrix of an image, steps 1-3 of spec
section 4.1 (luminance, resize to 32×32, DCT). -/
noncomputable def frequencyMatrix (img : Image) (u v : Nat) : ℝ :=
  dct (resized img) u v

/-- The image with the offset `c` added to every colour sample, the result being
clipped at the largest sample value `255`. -/
def brighten (c : Nat) (img : Image) : Image :=
  { img with samples := img.samples.map fun s =>
      (min 255 (s.1 + c), min 255 (s.2.1 + c), min 255 (s.2.2 + c)) }

/-! ## Reading the rendered hash -/

/-- Reading of a lowercase hex digit, following the spec's words ("16 lowercase hex
characters"): the value of `0`-`9`, `a`-`f`, nothing for any other character. -/
def hexDigitValue (c : Char) : Option Nat :=
  if '0' ≤ c ∧ c ≤ '9' then some (c.toNat - '0'.toNat)
  else if 'a' ≤ c ∧ c ≤ 'f' then some (c.toNat - 'a'.toNat + 10)
  else none

/-- Reading of a base-16 numeral, most significant digit first, following the spec's
words ("big-endian"): `none` when a character is not a lowercase hex digit. -/
def hexNumeral (cs : List Char) : Option Nat :=
  cs.foldl (fun acc c =>
    match acc, hexDigitValue c with
    | some n, some d => some (16 * n + d)
    | _, _ => none) (some 0)

/-- The eight bytes `imagePHash` writes for the value `v`, most significant first. -/
def be64 (v : Nat) : List Nat :=
  [byte (v >>> 56), byte (v >>> 48), byte (v >>> 40), byte (v >>> 32),
   byte (v >>> 24), byte (v >>> 16), byte (v >>> 8), byte v]

/-- The two 4-bit halves of each byte, high half first. -/
def nibbles (src : List Nat) : List Nat :=
  src.flatMap fun v => [v >>> 4, v &&& 0x0f]

/-! ## A concrete environment, to run the functions on explicit inputs -/

/-- An argument parser for the examples: the tuple at address `a` holds the object at
address `a`; parsing succeeds and leaves the world as it is. -/
def sampleParse (w : World) (a : Nat) : World × Option Nat := (w, some a)

/-- A file system with three files, `cat.png`, `empty.png` (both starting with the
PNG signature) and `notes.txt`; any other name fails to open. -/
def sampleOpen (name : String) : Except GoError Reader :=
  if name = "cat.png" then .ok [137, 80, 78, 71, 1]
  else if name = "empty.png" then .ok [137, 80, 78, 71, 0]
  else if name = "notes.txt" then .ok [104, 105]
  else .error ⟨.input, "open " ++ name ++ ": no such file or directory"⟩

/-- A decoder for the examples: `cat.png` is a 2×1 image, `empty.png` a 0×0 image,
anything without the PNG signature is rejected; it keeps no state. -/
def sampleDecode (s : Nat) (file : Reader) : Except GoError Image × Nat :=
  (if file = [137, 80, 78, 71, 1] then .ok ⟨2, 1, [(255, 0, 0), (0, 0, 255)]⟩
    else if file.take 4 = [137, 80, 78, 71] then .ok ⟨0, 0, []⟩
    else .error ⟨.input, "image: unknown format"⟩, s)

/-- A hasher for the examples: it rejects images of zero area and gives every other
image the hash `0x8f0f0f0f0f0f0f01`; it keeps no state. -/
def sampleHash (s : Nat) (img : Image) : Except GoError ImageHash × Nat :=
  (if img.width = 0 ∨ img.height = 0 then .error ⟨.computation, "could not compute hash"⟩
    else .ok ⟨0x8f0f0f0f0f0f0f01⟩, s)

/-- A hasher that is not a function of its input: it counts its calls in the library
state and returns the count as the hash. -/
def countingHash (s : Nat) (_ : Image) : Except GoError ImageHash × Nat :=
  (.ok ⟨s⟩, s + 1)

/-- A world whose heap holds one `str` object, the file name, at address `0`. -/
def sampleWorld (name : String) : World :=
  ⟨[], [⟨1, .unicode (codePoints name)⟩], none, 0, 0⟩

/-- A world whose heap holds, at address `0`, the `str` object `caf\udce9.png`: the
file name `caf\xe9.png` (Latin-1 bytes) as `os.fsdecode` returns it, with the byte
`0xE9` as the lone surrogate `U+DCE9`. -/
def surrogateWorld : World :=
  ⟨[], [⟨1, .unicode [99, 97, 102, 0xDCE9, 46, 112, 110, 103]⟩], none, 0, 0⟩

/-- A world whose heap holds, at address `0`, the `str` object `cat.png\0junk`, a file
name with an embedded NUL. -/
def nulWorld : World :=
  ⟨[], [⟨1, .unicode [99, 97, 116, 46, 112, 110, 103, 0, 106, 117, 110, 107]⟩], none, 0, 0⟩

/-! ## Rendering: lemmas on `hex.EncodeToString` and the big-endian bytes -/

theorem hextable_digit : ∀ d, d < 16 →
    hexDigitValue (hex.hextable.getD d '?') = some d ∧
      hex.hextable.getD d '?' ∈ hex.hextable := by
  decide

theorem encode_data (src : List Nat) :
    (hex.EncodeToString src).data = (nibbles src).map fun d => hex.hextable.getD d '?' := by
  simp [hex.EncodeToString, nibbles, List.map_flatMap]

theorem nibbles_length (src : List Nat) : (nibbles src).length = 2 * src.length := by
  induction src with
  | nil => rfl
  | cons v vs ih =>
    simp only [nibbles, List.flatMap_cons, List.length_append, List.length_cons,
      List.length_nil] at ih ⊢
    omega

theorem nibbles_lt (src : List Nat) (h : ∀ b ∈ src, b < 256) : ∀ d ∈ nibbles src, d < 16 := by
  intro d hd
  simp only [nibbles, List.mem_flatMap, List.mem_cons, List.mem_singleton, List.not_mem_nil,
    or_false] at hd
  obtain ⟨b, hb, rfl | rfl⟩ := hd
  · have := h b hb
    rw [Nat.shiftRight_eq_div_pow]
    omega
  · have := Nat.and_pow_two_sub_one_eq_mod b 4
    norm_num at this
    rw [this]
    omega

theorem hexNumeral_fold (ds : List Nat) (h : ∀ d ∈ ds, d < 16) (n : Nat) :
    List.foldl (fun acc c =>
      match acc, hexDigitValue c with
      | some n, some d => some (16 * n + d)
      | _, _ => none) (some n) (ds.map fun d => hex.hextable.getD d '?')
      = some (ds.foldl (fun n d => 16 * n + d) n) := by
  induction ds generalizing n with
  | nil => rfl
  | cons d ds ih =>
    have hd := (hextable_digit d (h d (List.mem_cons_self _ _))).1
    simp only [List.map_cons, List.foldl_cons, hd]
    exact ih (fun x hx => h x (List.mem_cons_of_mem _ hx)) _

theorem be64_lt (v : Nat) : ∀ b ∈ be64 v, b < 256 := by
  intro b hb
  simp only [be64, byte, List.mem_cons, List.mem_singleton, List.not_mem_nil, or_false] at hb
  omega

theorem nibbles_fold (src : List Nat) (n : Nat) :
    (nibbles src).foldl (fun n d => 16 * n + d) n = src.foldl (fun n b => 256 * n + b) n := by
  induction src generalizing n with
  | nil => rfl
  | cons b bs ih =>
    have hand : b &&& 15 = b % 16 := by
      have := Nat.and_pow_two_sub_one_eq_mod b 4
      norm_num at this
      exact this
    have hstep : 16 * (16 * n + b >>> 4) + (b &&& 0x0f) = 256 * n + b := by
      rw [hand, Nat.shiftRight_eq_div_pow]
      omega
    have hcons : nibbles (b :: bs) = b >>> 4 :: (b &&& 0x0f) :: nibbles bs := by
      simp [nibbles]
    rw [hcons, List.foldl_cons, List.foldl_cons, List.foldl_cons, hstep]
    exact ih _

theorem be64_value (v : Nat) :
    (nibbles (be64 v)).foldl (fun n d => 16 * n + d) 0 = v % 2 ^ 64 := by
  rw [nibbles_fold]
  simp only [be64, byte, List.foldl_cons, List.foldl_nil, Nat.shiftRight_eq_div_pow]
  omega

theorem encode_be64_length (v : Nat) : (hex.EncodeToString (be64 v)).data.length = 16 := by
  rw [encode_data, List.length_map, nibbles_length]
  rfl

theorem encode_be64_mem (v : Nat) :
    ∀ c ∈ (hex.EncodeToString (be64 v)).data, c ∈ hex.hextable := by
  intro c hc
  rw [encode_data, List.mem_map] at hc
  obtain ⟨d, hd, rfl⟩ := hc
  exact (hextable_digit d (nibbles_lt _ (be64_lt v) d hd)).2

theorem encode_be64_numeral (v : Nat) :
    hexNumeral (hex.EncodeToString (be64 v)).data = some (v % 2 ^ 64) := by
  rw [encode_data, hexNumeral, hexNumeral_fold _ (nibbles_lt _ (be64_lt v)), be64_value]

theorem getHash_mod (h : ImageHash) : h.GetHash % 2 ^ 64 = h.GetHash := by
  simp [ImageHash.GetHash]


/-! ## `imagePHash`: its three execution paths -/

theorem imagePHash_decode_error (Decode : Nat → Reader → Except GoError Image × Nat)
    (PerceptionHash : Nat → Image → Except GoError ImageHash × Nat) (file : Reader) (w : World)
    (err : GoError) (hdec : (Decode w.lib file).1 = .error err) :
    imagePHash Decode PerceptionHash file w =
      (.ret ("", some err),
        { trace := w.trace ++ [.decode file]
          heap := w.heap
          err := w.err
          cLive := w.cLive
          lib := (Decode w.lib file).2 }) := by
  rcases h : Decode w.lib file with ⟨r, s⟩
  rw [h] at hdec
  simp only at hdec
  subst hdec
  simp [imagePHash, World.record, h]

theorem imagePHash_hash_error (Decode : Nat → Reader → Except GoError Image × Nat)
    (PerceptionHash : Nat → Image → Except GoError ImageHash × Nat) (file : Reader) (w : World)
    (img : Image) (err : GoError) (hdec : (Decode w.lib file).1 = .ok img)
    (hhash : (PerceptionHash (Decode w.lib file).2 img).1 = .error err) :
    imagePHash Decode PerceptionHash file w =
      (.ret ("", some err),
        { trace := w.trace ++ [.decode file, .hash img]
          heap := w.heap
          err := w.err
          cLive := w.cLive
          lib := (PerceptionHash (Decode w.lib file).2 img).2 }) := by
  rcases h : Decode w.lib file with ⟨r, s⟩
  rw [h] at hdec hhash
  simp only at hdec hhash
  subst hdec
  rcases h' : PerceptionHash s img with ⟨r', s'⟩
  rw [h'] at hhash
  simp only at hhash
  subst hhash
  simp [imagePHash, World.record, h, h']

theorem imagePHash_ok (Decode : Nat → Reader → Except GoError Image × Nat)
    (PerceptionHash : Nat → Image → Except GoError ImageHash × Nat) (file : Reader) (w : World)
    (img : Image) (pHash : ImageHash) (hdec : (Decode w.lib file).1 = .ok img)
    (hhash : (PerceptionHash (Decode w.lib file).2 img).1 = .ok pHash) :
    imagePHash Decode PerceptionHash file w =
      (.ret ("0x" ++ hex.EncodeToString (be64 pHash.GetHash), none),
        { trace := w.trace ++ [.decode file, .hash img]
          heap := w.heap
          err := w.err
          cLive := w.cLive
          lib := (PerceptionHash (Decode w.lib file).2 img).2 }) := by
  have h8 : (64 : Int).tdiv 8 = 8 := by decide
  rcases h : Decode w.lib file with ⟨r, s⟩
  rw [h] at hdec hhash
  simp only at hdec hhash
  subst hdec
  rcases h' : PerceptionHash s img with ⟨r', s'⟩
  rw [h'] at hhash
  simp only at hhash
  subst hhash
  simp [imagePHash, World.record, h, h', ImageHash.Bits, h8, make,
    binary.BigEndian.PutUint64, List.replicate, be64]

theorem imagePHash_never_panics (Decode : Nat → Reader → Except GoError Image × Nat)
    (PerceptionHash : Nat → Image → Except GoError ImageHash × Nat) (file : Reader) (w : World)
    (msg : String) : (imagePHash Decode PerceptionHash file w).1 ≠ .panic msg := by
  cases hdec : (Decode w.lib file).1 with
  | error err => simp [imagePHash_decode_error _ PerceptionHash _ w _ hdec]
  | ok img =>
    cases hhash : (PerceptionHash (Decode w.lib file).2 img).1 with
    | error err => simp [imagePHash_hash_error _ _ _ w _ _ hdec hhash]
    | ok pHash => simp [imagePHash_ok _ _ _ w _ _ hdec hhash]

theorem rendered_ne_empty (v : Nat) : "0x" ++ hex.EncodeToString (be64 v) ≠ "" := by
  intro h
  have := congrArg String.length h
  rw [String.length_append] at this
  have h2 : "0x".length = 2 := by decide
  have h0 : "".length = 0 := by decide
  omega

/-! ## `imagePHash`: format, value, failure and determinism of the result -/

/-- Claim C1: whenever decoding and hashing both succeed, `imagePHash` returns (with a
`nil` error) a string of length 18: `"0x"` followed by exactly 16 characters, each one
of `0123456789abcdef`, whatever the image and the hash value; the hash value `0`
renders as `"0x0000000000000000"`. -/
theorem imagePHash_format (Decode : Nat → Reader → Except GoError Image × Nat)
    (PerceptionHash : Nat → Image → Except GoError ImageHash × Nat) (file : Reader) (w : World)
    (img : Image) (pHash : ImageHash)
    (hdec : (Decode w.lib file).1 = .ok img)
    (hhash : (PerceptionHash (Decode w.lib file).2 img).1 = .ok pHash) :
    ∃ digits : List Char,
      (imagePHash Decode PerceptionHash file w).1 = .ret ("0x" ++ String.mk digits, none) ∧
      ("0x" ++ String.mk digits).length = 18 ∧
      digits.length = 16 ∧
      (∀ c ∈ digits, c ∈ "0123456789abcdef".toList) ∧
      (pHash.GetHash = 0 → "0x" ++ String.mk digits = "0x0000000000000000") := by
  refine ⟨(hex.EncodeToString (be64 pHash.GetHash)).data, ?_, ?_, ?_, ?_, ?_⟩
  · rw [imagePHash_ok Decode PerceptionHash file w img pHash hdec hhash]
  · rw [String.length_append]
    show 2 + (hex.EncodeToString (be64 pHash.GetHash)).data.length = 18
    rw [encode_be64_length]
  · exact encode_be64_length _
  · exact encode_be64_mem _
  · intro h0
    rw [h0]
    decide

/-- Witness for C1: a 3×2 image whose hash is `0x00ff00000000abcd`. -/
theorem imagePHash_format_witness :
    ∃ digits : List Char,
      (imagePHash (pureCall fun _ => .ok ⟨3, 2, []⟩) (pureCall fun _ => .ok ⟨0x00ff00000000abcd⟩)
        [137, 80] ⟨[], [], none, 0, 0⟩).1 = .ret ("0x" ++ String.mk digits, none) ∧
      ("0x" ++ String.mk digits).length = 18 ∧
      digits.length = 16 ∧
      (∀ c ∈ digits, c ∈ "0123456789abcdef".toList) ∧
      (ImageHash.GetHash ⟨0x00ff00000000abcd⟩ = 0 →
        "0x" ++ String.mk digits = "0x0000000000000000") :=
  imagePHash_format (pureCall fun _ => .ok ⟨3, 2, []⟩) (pureCall fun _ => .ok ⟨0x00ff00000000abcd⟩)
    [137, 80] ⟨[], [], none, 0, 0⟩ ⟨3, 2, []⟩ ⟨0x00ff00000000abcd⟩ rfl rfl

/-- Claim C2: whenever decoding and hashing both succeed, the 16 characters after
`"0x"` read as a base-16 numeral, most significant digit first, give exactly the
64-bit value `GetHash()` of the hash; hence two successful calls that return the same
string had the same hash value. -/
theorem imagePHash_hex_big_endian (Decode : Nat → Reader → Except GoError Image × Nat)
    (PerceptionHash : Nat → Image → Except GoError ImageHash × Nat) (file : Reader) (w : World)
    (img : Image) (pHash : ImageHash)
    (hdec : (Decode w.lib file).1 = .ok img)
    (hhash : (PerceptionHash (Decode w.lib file).2 img).1 = .ok pHash) :
    (∃ digits : List Char,
      (imagePHash Decode PerceptionHash file w).1 = .ret ("0x" ++ String.mk digits, none) ∧
      digits.length = 16 ∧
      hexNumeral digits = some pHash.GetHash) ∧
    ∀ (Decode' : Nat → Reader → Except GoError Image × Nat)
      (PerceptionHash' : Nat → Image → Except GoError ImageHash × Nat) (file' : Reader)
      (w' : World) (img' : Image) (pHash' : ImageHash),
      (Decode' w'.lib file').1 = .ok img' →
      (PerceptionHash' (Decode' w'.lib file').2 img').1 = .ok pHash' →
      (imagePHash Decode' PerceptionHash' file' w').1 =
        (imagePHash Decode PerceptionHash file w).1 →
      pHash'.GetHash = pHash.GetHash := by
  constructor
  · refine ⟨(hex.EncodeToString (be64 pHash.GetHash)).data, ?_, encode_be64_length _, ?_⟩
    · rw [imagePHash_ok Decode PerceptionHash file w img pHash hdec hhash]
    · rw [encode_be64_numeral, getHash_mod]
  · intro Decode' PerceptionHash' file' w' img' pHash' hdec' hhash' heq
    rw [imagePHash_ok Decode PerceptionHash file w img pHash hdec hhash,
      imagePHash_ok Decode' PerceptionHash' file' w' img' pHash' hdec' hhash'] at heq
    have hs : hex.EncodeToString (be64 pHash'.GetHash) =
        hex.EncodeToString (be64 pHash.GetHash) := by
      have h1 := congrArg String.data (Prod.mk.inj (Outcome.ret.inj heq)).1
      simp only [String.data_append, List.append_cancel_left_eq] at h1
      exact String.ext h1
    have hn := congrArg (fun s => hexNumeral s.data) hs
    simp only [encode_be64_numeral, getHash_mod, Option.some.injEq] at hn
    exact hn

/-- Witness for C2: the hash value `0x0123456789abcdef` of a 1×1 image. -/
theorem imagePHash_hex_big_endian_witness :
    ∃ digits : List Char,
      (imagePHash (pureCall fun _ => .ok ⟨1, 1, [(9, 9, 9)]⟩)
        (pureCall fun _ => .ok ⟨0x0123456789abcdef⟩) [255]
        ⟨[], [], none, 0, 0⟩).1 = .ret ("0x" ++ String.mk digits, none) ∧
      digits.length = 16 ∧
      hexNumeral digits = some (ImageHash.GetHash ⟨0x0123456789abcdef⟩) :=
  (imagePHash_hex_big_endian (pureCall fun _ => .ok ⟨1, 1, [(9, 9, 9)]⟩)
    (pureCall fun _ => .ok ⟨0x0123456789abcdef⟩) [255] ⟨[], [], none, 0, 0⟩ ⟨1, 1, [(9, 9, 9)]⟩
    ⟨0x0123456789abcdef⟩ rfl rfl).1

/-- Claim C3: `imagePHash` never returns a degraded result.  If decoding fails it
returns `""` with the decoder's error and only the decoder has been called (the hasher
is not invoked); if decoding succeeds and hashing fails it returns `""` with the
hasher's error; it returns a non-empty string with a `nil` error exactly when both
steps succeed; and a returned error always comes with the empty string. -/
theorem imagePHash_all_or_nothing (Decode : Nat → Reader → Except GoError Image × Nat)
    (PerceptionHash : Nat → Image → Except GoError ImageHash × Nat) (file : Reader)
    (w : World) :
    (∀ err, (Decode w.lib file).1 = .error err →
      (imagePHash Decode PerceptionHash file w).1 = .ret ("", some err) ∧
      (imagePHash Decode PerceptionHash file w).2.trace = w.trace ++ [.decode file]) ∧
    (∀ img err, (Decode w.lib file).1 = .ok img →
      (PerceptionHash (Decode w.lib file).2 img).1 = .error err →
      (imagePHash Decode PerceptionHash file w).1 = .ret ("", some err)) ∧
    ((∃ s, (imagePHash Decode PerceptionHash file w).1 = .ret (s, none) ∧ s ≠ "") ↔
      ∃ img pHash, (Decode w.lib file).1 = .ok img ∧
        (PerceptionHash (Decode w.lib file).2 img).1 = .ok pHash) ∧
    (∀ s err, (imagePHash Decode PerceptionHash file w).1 = .ret (s, some err) → s = "") := by
  refine ⟨?_, ?_, ?_, ?_⟩
  · intro err hdec
    rw [imagePHash_decode_error _ PerceptionHash _ w _ hdec]
    exact ⟨rfl, rfl⟩
  · intro img err hdec hhash
    rw [imagePHash_hash_error _ _ _ w _ _ hdec hhash]
  · constructor
    · rintro ⟨s, hs, -⟩
      cases hdec : (Decode w.lib file).1 with
      | error err =>
        rw [imagePHash_decode_error _ PerceptionHash _ w _ hdec] at hs
        simp at hs
      | ok img =>
        cases hhash : (PerceptionHash (Decode w.lib file).2 img).1 with
        | error err =>
          rw [imagePHash_hash_error _ _ _ w _ _ hdec hhash] at hs
          simp at hs
        | ok pHash => exact ⟨img, pHash, rfl, hhash⟩
    · rintro ⟨img, pHash, hdec, hhash⟩
      refine ⟨"0x" ++ hex.EncodeToString (be64 pHash.GetHash), ?_, rendered_ne_empty _⟩
      rw [imagePHash_ok _ _ _ w _ _ hdec hhash]
  · intro s err hs
    cases hdec : (Decode w.lib file).1 with
    | error e =>
      rw [imagePHash_decode_error _ PerceptionHash _ w _ hdec] at hs
      exact ((Prod.mk.inj (Outcome.ret.inj hs)).1).symm
    | ok img =>
      cases hhash : (PerceptionHash (Decode w.lib file).2 img).1 with
      | error e =>
        rw [imagePHash_hash_error _ _ _ w _ _ hdec hhash] at hs
        exact ((Prod.mk.inj (Outcome.ret.inj hs)).1).symm
      | ok pHash =>
        rw [imagePHash_ok _ _ _ w _ _ hdec hhash] at hs
        simp at hs

/-- Witness for C3: `notes.txt` is not an image, so the decoder's error comes back with
the empty string and the hasher is never called; `empty.png` decodes and the hasher's
error comes back with the empty string. -/
theorem imagePHash_all_or_nothing_witness :
    ((imagePHash sampleDecode sampleHash [104, 105] (sampleWorld "notes.txt")).1 =
        .ret ("", some ⟨.input, "image: unknown format"⟩) ∧
      (imagePHash sampleDecode sampleHash [104, 105] (sampleWorld "notes.txt")).2.trace =
        [.decode [104, 105]]) ∧
    (imagePHash sampleDecode sampleHash [137, 80, 78, 71, 0] (sampleWorld "empty.png")).1 =
      .ret ("", some ⟨.computation, "could not compute hash"⟩) :=
  ⟨(imagePHash_all_or_nothing sampleDecode sampleHash [104, 105]
      (sampleWorld "notes.txt")).1 ⟨.input, "image: unknown format"⟩ rfl,
    (imagePHash_all_or_nothing sampleDecode sampleHash [137, 80, 78, 71, 0]
      (sampleWorld "empty.png")).2.1 ⟨0, 0, []⟩ ⟨.computation, "could not compute hash"⟩ rfl rfl⟩

/-- Claim C9: a hash whose reported width `Bits()` is 64 gets a buffer of length
exactly 8 and the big-endian write of its value stays inside it; for any reported
width, allocation and write succeed if and only if `Bits()/8` is at least 8; and
`imagePHash`, whose hashes report 64 bits, never panics. -/
theorem imagePHash_buffer_in_bounds (bits : Int) (v : Nat) :
    (bits = 64 → ∃ buf, make (bits.tdiv 8) = some buf ∧ buf.length = 8 ∧
      (binary.BigEndian.PutUint64 buf v).isSome = true) ∧
    (∀ buf, make (bits.tdiv 8) = some buf →
      ((binary.BigEndian.PutUint64 buf v).isSome = true ↔ 8 ≤ bits.tdiv 8)) ∧
    ((∃ buf, make (bits.tdiv 8) = some buf ∧
      (binary.BigEndian.PutUint64 buf v).isSome = true) ↔ 8 ≤ bits.tdiv 8) ∧
    (∀ (pHash : ImageHash), pHash.Bits = 64) ∧
    (∀ (Decode : Nat → Reader → Except GoError Image × Nat)
      (PerceptionHash : Nat → Image → Except GoError ImageHash × Nat) (file : Reader)
      (w : World) (msg : String),
      (imagePHash Decode PerceptionHash file w).1 ≠ .panic msg) := by
  have hput : ∀ buf : List Nat,
      ((binary.BigEndian.PutUint64 buf v).isSome = true ↔ 8 ≤ buf.length) := by
    intro buf
    unfold binary.BigEndian.PutUint64
    split
    · simp only [Option.isSome_none, Bool.false_eq_true, false_iff]
      omega
    · simp only [Option.isSome_some, true_iff]
      omega
  have hmake : ∀ buf, make (bits.tdiv 8) = some buf →
      0 ≤ bits.tdiv 8 ∧ (buf.length : Int) = bits.tdiv 8 := by
    intro buf hb
    unfold make at hb
    split at hb
    · exact absurd hb (by simp)
    · have := Option.some.inj hb
      subst this
      rw [List.length_replicate]
      omega
  refine ⟨?_, ?_, ?_, fun _ => rfl, imagePHash_never_panics⟩
  · intro h64
    subst h64
    exact ⟨List.replicate 8 0, by decide, by decide, (hput _).2 (by decide)⟩
  · intro buf hb
    have := hmake buf hb
    rw [hput]
    omega
  · constructor
    · rintro ⟨buf, hb, hp⟩
      have := hmake buf hb
      rw [hput] at hp
      omega
    · intro h8
      have hmk : make (bits.tdiv 8) = some (List.replicate (bits.tdiv 8).toNat 0) := by
        unfold make
        rw [if_neg (by omega)]
      refine ⟨_, hmk, (hput _).2 ?_⟩
      rw [List.length_replicate]
      omega

/-- Claim C4: when the decoder and the hasher are functions of their input (their
results do not depend on the library state they are called in, which they may still
update), `imagePHash` is deterministic: its result is the same in every world, in
particular in the world a first invocation leaves behind; it is the function of the
reader contents obtained by decoding, hashing and rendering; and the call reads and
changes nothing of the CPython heap, the error indicator and the C heap. -/
theorem imagePHash_deterministic (Decode : Nat → Reader → Except GoError Image × Nat)
    (PerceptionHash : Nat → Image → Except GoError ImageHash × Nat)
    (hDecode : ∀ s s' file, (Decode s file).1 = (Decode s' file).1)
    (hHash : ∀ s s' img, (PerceptionHash s img).1 = (PerceptionHash s' img).1)
    (file : Reader) (w₁ w₂ : World) :
    (imagePHash Decode PerceptionHash file w₁).1 =
      (imagePHash Decode PerceptionHash file w₂).1 ∧
    (imagePHash Decode PerceptionHash file (imagePHash Decode PerceptionHash file w₁).2).1 =
      (imagePHash Decode PerceptionHash file w₁).1 ∧
    (imagePHash Decode PerceptionHash file w₁).1 =
      (match (Decode 0 file).1 with
        | .error err => .ret ("", some err)
        | .ok img =>
          match (PerceptionHash 0 img).1 with
          | .error err => .ret ("", some err)
          | .ok pHash => .ret ("0x" ++ hex.EncodeToString (be64 pHash.GetHash), none)) ∧
    (imagePHash Decode PerceptionHash file w₁).2.heap = w₁.heap ∧
    (imagePHash Decode PerceptionHash file w₁).2.err = w₁.err ∧
    (imagePHash Decode PerceptionHash file w₁).2.cLive = w₁.cLive := by
  have key : ∀ w : World, (imagePHash Decode PerceptionHash file w).1 =
      (match (Decode 0 file).1 with
        | .error err => .ret ("", some err)
        | .ok img =>
          match (PerceptionHash 0 img).1 with
          | .error err => .ret ("", some err)
          | .ok pHash => .ret ("0x" ++ hex.EncodeToString (be64 pHash.GetHash), none)) := by
    intro w
    cases hdec : (Decode 0 file).1 with
    | error err =>
      have hdec' : (Decode w.lib file).1 = .error err := by rw [hDecode w.lib 0, hdec]
      rw [imagePHash_decode_error _ PerceptionHash _ w _ hdec']
    | ok img =>
      have hdec' : (Decode w.lib file).1 = .ok img := by rw [hDecode w.lib 0, hdec]
      cases hhash : (PerceptionHash 0 img).1 with
      | error err =>
        have hhash' : (PerceptionHash (Decode w.lib file).2 img).1 = .error err := by
          rw [hHash _ 0, hhash]
        rw [imagePHash_hash_error _ _ _ w _ _ hdec' hhash']
        simp only [hhash]
      | ok pHash =>
        have hhash' : (PerceptionHash (Decode w.lib file).2 img).1 = .ok pHash := by
          rw [hHash _ 0, hhash]
        rw [imagePHash_ok _ _ _ w _ _ hdec' hhash']
        simp only [hhash]
  refine ⟨by rw [key w₁, key w₂], by rw [key, key w₁], key w₁, ?_⟩
  cases hdec : (Decode w₁.lib file).1 with
  | error err => simp [imagePHash_decode_error _ PerceptionHash _ w₁ _ hdec]
  | ok img =>
    cases hhash : (PerceptionHash (Decode w₁.lib file).2 img).1 with
    | error err => simp [imagePHash_hash_error _ _ _ w₁ _ _ hdec hhash]
    | ok pHash => simp [imagePHash_ok _ _ _ w₁ _ _ hdec hhash]

/-- Witness for C4: a decoder and a hasher that count their calls in the library state
but whose results depend on their argument only. -/
theorem imagePHash_deterministic_witness :
    (imagePHash (fun s file => ((sampleDecode s file).1, s + 1))
        (fun s img => ((sampleHash s img).1, s + 1)) [137, 80, 78, 71, 1]
        (sampleWorld "cat.png")).1 =
      (imagePHash (fun s file => ((sampleDecode s file).1, s + 1))
        (fun s img => ((sampleHash s img).1, s + 1)) [137, 80, 78, 71, 1]
        ⟨[.close [1]], [], some (.PyExc_TypeError, 0), 3, 41⟩).1 :=
  (imagePHash_deterministic (fun s file => ((sampleDecode s file).1, s + 1))
    (fun s img => ((sampleHash s img).1, s + 1)) (fun _ _ _ => rfl) (fun _ _ _ => rfl)
    [137, 80, 78, 71, 1] (sampleWorld "cat.png")
    ⟨[.close [1]], [], some (.PyExc_TypeError, 0), 3, 41⟩).1

theorem imagePHash_state_reading_hasher :
    (imagePHash sampleDecode countingHash [137, 80, 78, 71, 1] (sampleWorld "cat.png")).1 =
      .ret ("0x0000000000000000", none) ∧
    (imagePHash sampleDecode countingHash [137, 80, 78, 71, 1]
      (imagePHash sampleDecode countingHash [137, 80, 78, 71, 1] (sampleWorld "cat.png")).2).1 =
      .ret ("0x0000000000000001", none) := by
  decide

/-! ## `getPHash`: the execution paths after a successful argument parse -/

theorem modify_append_add {α : Type} (f : α → α) (l l' : List α) (k : Nat) :
    List.modify f (l.length + k) (l ++ l') = l ++ List.modify f k l' := by
  induction l with
  | nil => simp
  | cons a l ih =>
    have hlen : (a :: l).length + k = (l.length + k) + 1 := by
      simp only [List.length_cons]
      omega
    have hstep : List.modify f ((l.length + k) + 1) (a :: (l ++ l')) =
        a :: List.modify f (l.length + k) (l ++ l') := rfl
    rw [hlen, List.cons_append, hstep, ih, List.cons_append]

theorem getElem?_append_pair {α : Type} (l : List α) (a b : α) :
    (l ++ [a, b])[l.length]? = some a ∧ (l ++ [a, b])[l.length + 1]? = some b := by
  constructor
  · rw [List.getElem?_append_right (Nat.le_refl _)]
    simp
  · rw [List.getElem?_append_right (Nat.le_add_right _ _)]
    simp

theorem utf8Text_codePoints (s : String) : utf8Text (codePoints s) = some s := by
  have hall : (codePoints s).all isScalarValue = true := by
    simp only [codePoints, List.all_eq_true, List.mem_map, forall_exists_index, and_imp,
      forall_apply_eq_imp_iff₂]
    intro c _
    have hv := c.valid
    simp only [isScalarValue, Bool.or_eq_true, Bool.and_eq_true, decide_eq_true_eq]
    exact hv
  have hmap : (codePoints s).map Char.ofNat = s.data := by
    simp only [codePoints, List.map_map]
    conv_rhs => rw [← List.map_id s.data]
    apply List.map_congr_left
    intro c _
    exact Char.ofNat_toNat c
  simp only [utf8Text, hall, if_true, hmap]

theorem cText_rendered (v : Nat) :
    cText ("0x" ++ hex.EncodeToString (be64 v)) = "0x" ++ hex.EncodeToString (be64 v) := by
  have hdig : ∀ c ∈ hex.hextable, (c != Char.ofNat 0) = true := by decide
  have hall : ∀ c ∈ ("0x" ++ hex.EncodeToString (be64 v)).data, (c != Char.ofNat 0) = true := by
    intro c hc
    rw [String.data_append, List.mem_append] at hc
    rcases hc with hc | hc
    · revert c
      decide
    · exact hdig c (encode_be64_mem v c hc)
  apply String.ext
  show List.takeWhile _ _ = _
  exact List.takeWhile_eq_self_iff.2 hall

theorem asUTF8_encodable (w : World) (obj rc : Nat) (cps : List Nat) (name : String)
    (hobj : w.heap[obj]? = some ⟨rc, .unicode cps⟩) (henc : utf8Text cps = some name) :
    PyUnicode_AsUTF8String w obj =
      (some w.heap.length, { w with heap := w.heap ++ [⟨1, .bytes name⟩] }) := by
  simp [PyUnicode_AsUTF8String, hobj, henc]

theorem asUTF8_unencodable (w : World) (obj rc : Nat) (cps : List Nat)
    (hobj : w.heap[obj]? = some ⟨rc, .unicode cps⟩) (henc : utf8Text cps = none) :
    (PyUnicode_AsUTF8String w obj).1 = none := by
  simp [PyUnicode_AsUTF8String, hobj, henc]

theorem getPHash_open_error (PyArg_ParseTuple_U : World → Nat → World × Option Nat)
    (Open : String → Except GoError Reader)
    (Decode : Nat → Reader → Except GoError Image × Nat)
    (PerceptionHash : Nat → Image → Except GoError ImageHash × Nat) (args : Nat) (w w₁ : World)
    (obj rc : Nat) (cps : List Nat) (name : String) (err : GoError)
    (hparse : PyArg_ParseTuple_U w args = (w₁, some obj))
    (hobj : w₁.heap[obj]? = some ⟨rc, .unicode cps⟩) (henc : utf8Text cps = some name)
    (hopen : Open (cText name) = .error err) :
    getPHash PyArg_ParseTuple_U Open Decode PerceptionHash args w =
      (.ret none,
        { trace := w₁.trace
          heap := w₁.heap ++ [⟨1, .bytes name⟩, ⟨2, .unicode (codePoints (cText err.text))⟩]
          err := some (.PyExc_RuntimeError, w₁.heap.length + 1)
          cLive := w₁.cLive
          lib := w₁.lib }) := by
  simp [getPHash, hparse, asUTF8_encodable w₁ obj rc cps name hobj henc, PyBytes_AsString,
    GoString, hopen, CString, PyUnicode_FromString, PyErr_SetObject, Py_IncRef, free,
    GoError.Error, modify_append_add]

theorem getPHash_decode_error (PyArg_ParseTuple_U : World → Nat → World × Option Nat)
    (Open : String → Except GoError Reader)
    (Decode : Nat → Reader → Except GoError Image × Nat)
    (PerceptionHash : Nat → Image → Except GoError ImageHash × Nat) (args : Nat) (w w₁ : World)
    (obj rc : Nat) (cps : List Nat) (name : String) (file : Reader) (err : GoError)
    (hparse : PyArg_ParseTuple_U w args = (w₁, some obj))
    (hobj : w₁.heap[obj]? = some ⟨rc, .unicode cps⟩) (henc : utf8Text cps = some name)
    (hopen : Open (cText name) = .ok file) (hdec : (Decode w₁.lib file).1 = .error err) :
    getPHash PyArg_ParseTuple_U Open Decode PerceptionHash args w =
      (.ret none,
        { trace := w₁.trace ++ [.decode file, .close file]
          heap := w₁.heap ++ [⟨1, .bytes name⟩, ⟨2, .unicode (codePoints (cText err.text))⟩]
          err := some (.PyExc_RuntimeError, w₁.heap.length + 1)
          cLive := w₁.cLive
          lib := (Decode w₁.lib file).2 }) := by
  have himg := imagePHash_decode_error Decode PerceptionHash file
    { w₁ with heap := w₁.heap ++ [⟨1, .bytes name⟩] } err hdec
  simp [getPHash, hparse, asUTF8_encodable w₁ obj rc cps name hobj henc, PyBytes_AsString,
    GoString, hopen, himg, World.record, Close, CString, PyUnicode_FromString, PyErr_SetObject,
    Py_IncRef, free, GoError.Error, modify_append_add]

theorem getPHash_hash_error (PyArg_ParseTuple_U : World → Nat → World × Option Nat)
    (Open : String → Except GoError Reader)
    (Decode : Nat → Reader → Except GoError Image × Nat)
    (PerceptionHash : Nat → Image → Except GoError ImageHash × Nat) (args : Nat) (w w₁ : World)
    (obj rc : Nat) (cps : List Nat) (name : String) (file : Reader) (img : Image)
    (err : GoError)
    (hparse : PyArg_ParseTuple_U w args = (w₁, some obj))
    (hobj : w₁.heap[obj]? = some ⟨rc, .unicode cps⟩) (henc : utf8Text cps = some name)
    (hopen : Open (cText name) = .ok file) (hdec : (Decode w₁.lib file).1 = .ok img)
    (hhash : (PerceptionHash (Decode w₁.lib file).2 img).1 = .error err) :
    getPHash PyArg_ParseTuple_U Open Decode PerceptionHash args w =
      (.ret none,
        { trace := w₁.trace ++ [.decode file, .hash img, .close file]
          heap := w₁.heap ++ [⟨1, .bytes name⟩, ⟨2, .unicode (codePoints (cText err.text))⟩]
          err := some (.PyExc_RuntimeError, w₁.heap.length + 1)
          cLive := w₁.cLive
          lib := (PerceptionHash (Decode w₁.lib file).2 img).2 }) := by
  have himg := imagePHash_hash_error Decode PerceptionHash file
    { w₁ with heap := w₁.heap ++ [⟨1, .bytes name⟩] } img err hdec hhash
  simp [getPHash, hparse, asUTF8_encodable w₁ obj rc cps name hobj henc, PyBytes_AsString,
    GoString, hopen, himg, World.record, Close, CString, PyUnicode_FromString, PyErr_SetObject,
    Py_IncRef, free, GoError.Error, modify_append_add]

theorem getPHash_success (PyArg_ParseTuple_U : World → Nat → World × Option Nat)
    (Open : String → Except GoError Reader)
    (Decode : Nat → Reader → Except GoError Image × Nat)
    (PerceptionHash : Nat → Image → Except GoError ImageHash × Nat) (args : Nat) (w w₁ : World)
    (obj rc : Nat) (cps : List Nat) (name : String) (file : Reader) (img : Image)
    (pHash : ImageHash)
    (hparse : PyArg_ParseTuple_U w args = (w₁, some obj))
    (hobj : w₁.heap[obj]? = some ⟨rc, .unicode cps⟩) (henc : utf8Text cps = some name)
    (hopen : Open (cText name) = .ok file) (hdec : (Decode w₁.lib file).1 = .ok img)
    (hhash : (PerceptionHash (Decode w₁.lib file).2 img).1 = .ok pHash) :
    getPHash PyArg_ParseTuple_U Open Decode PerceptionHash args w =
      (.ret (some (w₁.heap.length + 1)),
        { trace := w₁.trace ++
            [.decode file, .hash img, .decref w₁.heap.length, .close file]
          heap := w₁.heap ++ [⟨0, .bytes name⟩,
            ⟨1, .unicode (codePoints ("0x" ++ hex.EncodeToString (be64 pHash.GetHash)))⟩]
          err := w₁.err
          cLive := w₁.cLive
          lib := (PerceptionHash (Decode w₁.lib file).2 img).2 }) := by
  have himg := imagePHash_ok Decode PerceptionHash file
    { w₁ with heap := w₁.heap ++ [⟨1, .bytes name⟩] } img pHash hdec hhash
  have hm := modify_append_add (fun c : PyObject => { c with ob_refcnt := c.ob_refcnt - 1 })
    w₁.heap [⟨1, .bytes name⟩,
      ⟨1, .unicode (codePoints ("0x" ++ hex.EncodeToString (be64 pHash.GetHash)))⟩] 0
  simp at hm
  simp [getPHash, hparse, asUTF8_encodable w₁ obj rc cps name hobj henc, PyBytes_AsString,
    GoString, hopen, himg, World.record, Close, CString, PyUnicode_FromString, Py_DecRef, free,
    hm, cText_rendered]

/-! ## `getPHash`: the error channel and the file-name bytes object -/

theorem getPHash_encodable_name (PyArg_ParseTuple_U : World → Nat → World × Option Nat)
    (Open : String → Except GoError Reader)
    (Decode : Nat → Reader → Except GoError Image × Nat)
    (PerceptionHash : Nat → Image → Except GoError ImageHash × Nat) (args : Nat) (w w₁ : World)
    (obj rc : Nat) (cps : List Nat) (name : String)
    (hparse : PyArg_ParseTuple_U w args = (w₁, some obj))
    (hobj : w₁.heap[obj]? = some ⟨rc, .unicode cps⟩) (henc : utf8Text cps = some name) :
    (∀ err, Open (cText name) = .error err →
      (getPHash PyArg_ParseTuple_U Open Decode PerceptionHash args w).1 = .ret none ∧
      (getPHash PyArg_ParseTuple_U Open Decode PerceptionHash args w).2.pending =
        some (.PyExc_RuntimeError, some (codePoints (cText err.Error)))) ∧
    (∀ file s err, Open (cText name) = .ok file →
      (imagePHash Decode PerceptionHash file w₁).1 = .ret (s, some err) →
      (getPHash PyArg_ParseTuple_U Open Decode PerceptionHash args w).1 = .ret none ∧
      (getPHash PyArg_ParseTuple_U Open Decode PerceptionHash args w).2.pending =
        some (.PyExc_RuntimeError, some (codePoints (cText err.Error)))) ∧
    (∀ file s, Open (cText name) = .ok file →
      (imagePHash Decode PerceptionHash file w₁).1 = .ret (s, none) →
      ∃ ret, (getPHash PyArg_ParseTuple_U Open Decode PerceptionHash args w).1 =
          .ret (some ret) ∧
        (getPHash PyArg_ParseTuple_U Open Decode PerceptionHash args w).2.strAt ret =
          some (codePoints s) ∧
        (getPHash PyArg_ParseTuple_U Open Decode PerceptionHash args w).2.err = w₁.err) ∧
    ((getPHash PyArg_ParseTuple_U Open Decode PerceptionHash args w).1 = .ret none ↔
      (∃ err, Open (cText name) = .error err) ∨
      ∃ file s err, Open (cText name) = .ok file ∧
        (imagePHash Decode PerceptionHash file w₁).1 = .ret (s, some err)) := by
  have hpend : ∀ (t : List Event) (n l : Nat) (text : List Nat),
      World.pending ⟨t, w₁.heap ++ [⟨1, .bytes name⟩, ⟨2, .unicode text⟩],
        some (.PyExc_RuntimeError, w₁.heap.length + 1), n, l⟩ =
        some (.PyExc_RuntimeError, some text) := by
    intro t n l text
    simp [World.pending, World.strAt, (getElem?_append_pair w₁.heap _ _).2]
  refine ⟨?_, ?_, ?_, ?_⟩
  · intro err hopen
    rw [getPHash_open_error _ _ Decode PerceptionHash _ _ _ _ _ _ _ _ hparse hobj henc hopen]
    exact ⟨rfl, hpend _ _ _ _⟩
  · intro file s err hopen himg
    cases hdec : (Decode w₁.lib file).1 with
    | error e =>
      rw [imagePHash_decode_error _ PerceptionHash _ w₁ _ hdec] at himg
      obtain rfl : e = err := by
        simp only [Outcome.ret.injEq, Prod.mk.injEq, Option.some.injEq] at himg
        exact himg.2
      rw [getPHash_decode_error _ _ _ PerceptionHash _ _ _ _ _ _ _ _ _ hparse hobj henc hopen
        hdec]
      exact ⟨rfl, hpend _ _ _ _⟩
    | ok img =>
      cases hhash : (PerceptionHash (Decode w₁.lib file).2 img).1 with
      | error e =>
        rw [imagePHash_hash_error _ _ _ w₁ _ _ hdec hhash] at himg
        obtain rfl : e = err := by
          simp only [Outcome.ret.injEq, Prod.mk.injEq, Option.some.injEq] at himg
          exact himg.2
        rw [getPHash_hash_error _ _ _ _ _ _ _ _ _ _ _ _ _ _ hparse hobj henc hopen hdec hhash]
        exact ⟨rfl, hpend _ _ _ _⟩
      | ok pHash =>
        rw [imagePHash_ok _ _ _ w₁ _ _ hdec hhash] at himg
        simp at himg
  · intro file s hopen himg
    cases hdec : (Decode w₁.lib file).1 with
    | error e =>
      rw [imagePHash_decode_error _ PerceptionHash _ w₁ _ hdec] at himg
      simp at himg
    | ok img =>
      cases hhash : (PerceptionHash (Decode w₁.lib file).2 img).1 with
      | error e =>
        rw [imagePHash_hash_error _ _ _ w₁ _ _ hdec hhash] at himg
        simp at himg
      | ok pHash =>
        rw [imagePHash_ok _ _ _ w₁ _ _ hdec hhash] at himg
        obtain rfl : "0x" ++ hex.EncodeToString (be64 pHash.GetHash) = s := by
          simpa using himg
        rw [getPHash_success _ _ _ _ _ _ _ _ _ _ _ _ _ _ hparse hobj henc hopen hdec hhash]
        refine ⟨w₁.heap.length + 1, rfl, ?_, rfl⟩
        simp [World.strAt, (getElem?_append_pair w₁.heap _ _).2]
  · cases hopen : Open (cText name) with
    | error err =>
      rw [getPHash_open_error _ _ Decode PerceptionHash _ _ _ _ _ _ _ _ hparse hobj henc hopen]
      simp
    | ok file =>
      cases hdec : (Decode w₁.lib file).1 with
      | error e =>
        rw [getPHash_decode_error _ _ _ PerceptionHash _ _ _ _ _ _ _ _ _ hparse hobj henc hopen
          hdec]
        simp only [true_iff]
        exact Or.inr ⟨file, "", e, rfl, by rw [imagePHash_decode_error _ _ _ w₁ _ hdec]⟩
      | ok img =>
        cases hhash : (PerceptionHash (Decode w₁.lib file).2 img).1 with
        | error e =>
          rw [getPHash_hash_error _ _ _ _ _ _ _ _ _ _ _ _ _ _ hparse hobj henc hopen hdec hhash]
          simp only [true_iff]
          exact Or.inr ⟨file, "", e, rfl, by rw [imagePHash_hash_error _ _ _ w₁ _ _ hdec hhash]⟩
        | ok pHash =>
          rw [getPHash_success _ _ _ _ _ _ _ _ _ _ _ _ _ _ hparse hobj henc hopen hdec hhash]
          constructor
          · intro h
            simp at h
          · rintro (⟨err, herr⟩ | ⟨file', s, err, hfile, himg⟩)
            · simp at herr
            · obtain rfl : file = file' := by simpa using hfile
              rw [imagePHash_ok _ _ _ w₁ _ _ hdec hhash] at himg
              simp at himg

theorem getPHash_unencodable_name (PyArg_ParseTuple_U : World → Nat → World × Option Nat)
    (Open : String → Except GoError Reader)
    (Decode : Nat → Reader → Except GoError Image × Nat)
    (PerceptionHash : Nat → Image → Except GoError ImageHash × Nat) (args : Nat) (w w₁ : World)
    (obj rc : Nat) (cps : List Nat)
    (hparse : PyArg_ParseTuple_U w args = (w₁, some obj))
    (hobj : w₁.heap[obj]? = some ⟨rc, .unicode cps⟩) (henc : utf8Text cps = none) :
    (getPHash PyArg_ParseTuple_U Open Decode PerceptionHash args w).1 =
        .panic "SIGSEGV: PyBytes_AsString(NULL)" ∧
    ((getPHash PyArg_ParseTuple_U Open Decode PerceptionHash args w).2.pending).map Prod.fst =
        some .PyExc_UnicodeEncodeError := by
  simp [getPHash, hparse, PyUnicode_AsUTF8String, hobj, henc, World.pending]

/-- Claim C5, evaluated at a file name the UTF-8 codec rejects.  The argument parse
succeeds and yields the `str` object `caf\udce9.png`; `PyUnicode_AsUTF8String` returns
`NULL`, which line 44 passes on unchecked: `getPHash` does not return at all (neither
`nil` nor a `str`), and the pending exception is the codec's `UnicodeEncodeError`, not
a `RuntimeError`, although neither `os.Open` nor `imagePHash` has failed: they were
never called. -/
theorem getPHash_aborts_on_surrogate_name :
    sampleParse surrogateWorld 0 = (surrogateWorld, some 0) ∧
    surrogateWorld.strAt 0 = some [99, 97, 102, 0xDCE9, 46, 112, 110, 103] ∧
    (getPHash sampleParse sampleOpen sampleDecode sampleHash 0 surrogateWorld).1 =
      .panic "SIGSEGV: PyBytes_AsString(NULL)" ∧
    (getPHash sampleParse sampleOpen sampleDecode sampleHash 0 surrogateWorld).2.pending =
      some (.PyExc_UnicodeEncodeError, none) ∧
    (getPHash sampleParse sampleOpen sampleDecode sampleHash 0 surrogateWorld).2.trace = [] := by
  decide

theorem getPHash_name_with_nul :
    (getPHash sampleParse sampleOpen sampleDecode sampleHash 0 nulWorld).1 = .ret (some 2) ∧
    (getPHash sampleParse sampleOpen sampleDecode sampleHash 0 nulWorld).2.strAt 2 =
      some (codePoints "0x8f0f0f0f0f0f0f01") ∧
    (getPHash sampleParse sampleOpen sampleDecode sampleHash 0 nulWorld).2.trace =
      [.decode [137, 80, 78, 71, 1], .hash ⟨2, 1, [(255, 0, 0), (0, 0, 255)]⟩, .decref 1,
        .close [137, 80, 78, 71, 1]] := by
  decide

theorem getPHash_bytes_reference (PyArg_ParseTuple_U : World → Nat → World × Option Nat)
    (Open : String → Except GoError Reader)
    (Decode : Nat → Reader → Except GoError Image × Nat)
    (PerceptionHash : Nat → Image → Except GoError ImageHash × Nat) (args : Nat) (w w₁ : World)
    (obj rc : Nat) (cps : List Nat) (name : String)
    (hparse : PyArg_ParseTuple_U w args = (w₁, some obj))
    (hobj : w₁.heap[obj]? = some ⟨rc, .unicode cps⟩) (henc : utf8Text cps = some name) :
    ((getPHash PyArg_ParseTuple_U Open Decode PerceptionHash args w).1 = .ret none →
      (getPHash PyArg_ParseTuple_U Open Decode PerceptionHash args w).2.refcnt w₁.heap.length = 1 ∧
      (getPHash PyArg_ParseTuple_U Open Decode PerceptionHash args w).2.releases w₁.heap.length =
        w₁.releases w₁.heap.length) ∧
    ((getPHash PyArg_ParseTuple_U Open Decode PerceptionHash args w).1 ≠ .ret none →
      (getPHash PyArg_ParseTuple_U Open Decode PerceptionHash args w).2.refcnt w₁.heap.length = 0 ∧
      (getPHash PyArg_ParseTuple_U Open Decode PerceptionHash args w).2.releases w₁.heap.length =
        w₁.releases w₁.heap.length + 1) := by
  cases hopen : Open (cText name) with
  | error err =>
    rw [getPHash_open_error _ _ Decode PerceptionHash _ _ _ _ _ _ _ _ hparse hobj henc hopen]
    simp [World.refcnt, World.releases, (getElem?_append_pair w₁.heap _ _).1]
  | ok file =>
    cases hdec : (Decode w₁.lib file).1 with
    | error e =>
      rw [getPHash_decode_error _ _ _ PerceptionHash _ _ _ _ _ _ _ _ _ hparse hobj henc hopen
        hdec]
      simp [World.refcnt, World.releases, (getElem?_append_pair w₁.heap _ _).1]
    | ok img =>
      cases hhash : (PerceptionHash (Decode w₁.lib file).2 img).1 with
      | error e =>
        rw [getPHash_hash_error _ _ _ _ _ _ _ _ _ _ _ _ _ _ hparse hobj henc hopen hdec hhash]
        simp [World.refcnt, World.releases, (getElem?_append_pair w₁.heap _ _).1]
      | ok pHash =>
        rw [getPHash_success _ _ _ _ _ _ _ _ _ _ _ _ _ _ hparse hobj henc hopen hdec hhash]
        simp [World.refcnt, World.releases, (getElem?_append_pair w₁.heap _ _).1]

/-- Claim C10, evaluated: the bytes object of the file name sits at address `1`.  When
the file cannot be opened (`missing.png`), when decoding fails (`notes.txt`) and when
hashing fails (`empty.png`), `getPHash` returns `nil` without a single `Py_DecRef` on
that object, whose reference count stays `1`; only on success (`cat.png`) is it
released, once, and its count drops to `0`. -/
theorem getPHash_leaks_bytes_on_error :
    ((getPHash sampleParse sampleOpen sampleDecode sampleHash 0 (sampleWorld "missing.png")).1
        = .ret none ∧
      (getPHash sampleParse sampleOpen sampleDecode sampleHash 0
        (sampleWorld "missing.png")).2.refcnt 1 = 1 ∧
      (getPHash sampleParse sampleOpen sampleDecode sampleHash 0
        (sampleWorld "missing.png")).2.releases 1 = 0) ∧
    ((getPHash sampleParse sampleOpen sampleDecode sampleHash 0 (sampleWorld "notes.txt")).1
        = .ret none ∧
      (getPHash sampleParse sampleOpen sampleDecode sampleHash 0
        (sampleWorld "notes.txt")).2.refcnt 1 = 1 ∧
      (getPHash sampleParse sampleOpen sampleDecode sampleHash 0
        (sampleWorld "notes.txt")).2.releases 1 = 0) ∧
    ((getPHash sampleParse sampleOpen sampleDecode sampleHash 0 (sampleWorld "empty.png")).1
        = .ret none ∧
      (getPHash sampleParse sampleOpen sampleDecode sampleHash 0
        (sampleWorld "empty.png")).2.refcnt 1 = 1 ∧
      (getPHash sampleParse sampleOpen sampleDecode sampleHash 0
        (sampleWorld "empty.png")).2.releases 1 = 0) ∧
    ((getPHash sampleParse sampleOpen sampleDecode sampleHash 0 (sampleWorld "cat.png")).1
        = .ret (some 2) ∧
      (getPHash sampleParse sampleOpen sampleDecode sampleHash 0
        (sampleWorld "cat.png")).2.refcnt 1 = 0 ∧
      (getPHash sampleParse sampleOpen sampleDecode sampleHash 0
        (sampleWorld "cat.png")).2.releases 1 = 1) := by
  decide

/-! ## The hasher of the specification: error kind and median thresholding -/

theorem lowFrequencyBlock_eq :
    lowFrequencyBlock = (List.range 64).map fun k => (1 + k / 8, 1 + k % 8) := by
  rfl

theorem extract_eq {K : Type} (F : Nat → Nat → K) :
    extract F = (List.range 64).map fun k => F (1 + k / 8) (1 + k % 8) := by
  rfl

theorem threshold_fold {K : Type} (p : K → Prop) [DecidablePred p] (cs : List K) :
    cs.foldl (fun acc c => 2 * acc + if p c then 1 else 0) 0 < 2 ^ cs.length ∧
    ∀ k c, cs[k]? = some c →
      cs.foldl (fun acc c => 2 * acc + if p c then 1 else 0) 0 / 2 ^ (cs.length - 1 - k) % 2 =
        if p c then 1 else 0 := by
  induction cs using List.reverseRecOn with
  | nil => simp
  | append_singleton cs a ih =>
    obtain ⟨hlt, hbit⟩ := ih
    have hb : (if p a then 1 else 0 : Nat) ≤ 1 := by split <;> simp
    rw [List.foldl_append, List.foldl_cons, List.foldl_nil, List.length_append,
      List.length_singleton]
    refine ⟨by rw [pow_succ]; omega, ?_⟩
    intro k c hk
    by_cases hkn : k < cs.length
    · rw [List.getElem?_append_left hkn] at hk
      have hexp : cs.length + 1 - 1 - k = (cs.length - 1 - k) + 1 := by omega
      rw [hexp, pow_succ', ← Nat.div_div_eq_div_mul]
      have hhalf : (2 * List.foldl (fun acc c => 2 * acc + if p c then 1 else 0) 0 cs +
          if p a then 1 else 0) / 2 =
          List.foldl (fun acc c => 2 * acc + if p c then 1 else 0) 0 cs := by omega
      rw [hhalf]
      exact hbit k c hk
    · have hle : cs.length ≤ k := Nat.le_of_not_lt hkn
      rw [List.getElem?_append_right hle] at hk
      have hk0 : k - cs.length = 0 := by
        by_contra hne
        have : ([a] : List K)[k - cs.length]? = none := by
          apply List.getElem?_eq_none
          simp only [List.length_singleton]
          omega
        rw [this] at hk
        exact absurd hk (by simp)
      rw [hk0] at hk
      obtain rfl : a = c := by simpa using hk
      have hexp : cs.length + 1 - 1 - k = 0 := by omega
      rw [hexp, pow_zero, Nat.div_one]
      omega

theorem extract_getElem? {K : Type} (F : Nat → Nat → K) (r c : Nat) (hr : r < 8) (hc : c < 8) :
    (extract F)[8 * r + c]? = some (F (1 + r) (1 + c)) := by
  have h64 : 8 * r + c < 64 := by omega
  have hdiv : (8 * r + c) / 8 = r := by omega
  have hmod : (8 * r + c) % 8 = c := by omega
  rw [extract_eq, List.getElem?_map, List.getElem?_range h64]
  simp only [Option.map_some', hdiv, hmod]

theorem extract_congr {K : Type} (F G : Nat → Nat → K)
    (hFG : ∀ r c, 1 ≤ r → r ≤ 8 → 1 ≤ c → c ≤ 8 → G r c = F r c) : extract G = extract F := by
  rw [extract_eq, extract_eq]
  apply List.map_congr_left
  intro k hk
  have hk64 : k < 64 := List.mem_range.1 hk
  apply hFG <;> omega

/-- Claim C6 (hasher modelled from the spec): for a successfully decoded image whose
width or height is zero, hashing yields an error of the computation kind, which is
not the input kind of undecodable bytes, and `imagePHash` returns that error with the
empty string: no fingerprint. -/
theorem imagePHash_zero_area {K : Type} [LinearOrderedField K] (freq : Image → Nat → Nat → K)
    (Decode : Nat → Reader → Except GoError Image × Nat) (file : Reader) (w : World)
    (img : Image) (hdec : (Decode w.lib file).1 = .ok img)
    (hzero : img.width = 0 ∨ img.height = 0) :
    ∃ err, PerceptionHash freq img = .error err ∧
      err.kind = .computation ∧
      (∀ e : GoError, e.kind = .input → err ≠ e) ∧
      (imagePHash Decode (pureCall (PerceptionHash freq)) file w).1 = .ret ("", some err) := by
  have hhash : PerceptionHash freq img =
      .error ⟨.computation, "could not compute hash"⟩ := by
    simp [PerceptionHash, hzero]
  refine ⟨_, hhash, rfl, ?_, ?_⟩
  · intro e he heq
    rw [← heq] at he
    exact absurd he (by decide)
  · rw [imagePHash_hash_error Decode (pureCall (PerceptionHash freq)) file w img _ hdec
      (by simp only [pureCall]; exact hhash)]

/-- Witness for C6: the decoder yields a 0×0 image for `empty.png`; the hasher of the
specification rejects it with a computation-kind error and `imagePHash` returns no
fingerprint. -/
theorem imagePHash_zero_area_witness :
    (sampleDecode 0 [137, 80, 78, 71, 0]).1 = .ok ⟨0, 0, []⟩ ∧
    ∃ err, PerceptionHash (fun _ r c => (r : ℚ) - c) ⟨0, 0, []⟩ = .error err ∧
      err.kind = .computation ∧
      (∀ e : GoError, e.kind = .input → err ≠ e) ∧
      (imagePHash sampleDecode (pureCall (PerceptionHash (fun _ r c => (r : ℚ) - c)))
        [137, 80, 78, 71, 0] (sampleWorld "empty.png")).1 = .ret ("", some err) :=
  ⟨rfl,
    imagePHash_zero_area (fun _ r c => (r : ℚ) - c) sampleDecode [137, 80, 78, 71, 0]
      (sampleWorld "empty.png") ⟨0, 0, []⟩ rfl (Or.inl rfl)⟩

/-- Claim C7 (hasher modelled from the spec): for every image of non-zero area the
fingerprint is a 64-bit value with one bit per extracted low-frequency coefficient.
The 64 extracted coefficients are those of rows 1-8 and columns 1-8 of the frequency
matrix, so the DC term `[0,0]` is not among them and has no influence on the
fingerprint; they are taken in row-major order (block row `r`, column `c` at bit
`63 - (8 r + c)`), and a bit is `1` exactly when its coefficient is strictly greater
than the median of the extracted coefficients. -/
theorem PerceptionHash_median_bits {K : Type} [LinearOrderedField K]
    (freq : Image → Nat → Nat → K) (img : Image)
    (hw : img.width ≠ 0) (hh : img.height ≠ 0) :
    ∃ pHash, PerceptionHash freq img = .ok pHash ∧
      pHash.hash < 2 ^ 64 ∧
      (extract (freq img)).length = 64 ∧
      (0, 0) ∉ lowFrequencyBlock ∧
      (∀ r c, r < 8 → c < 8 →
        pHash.hash / 2 ^ (63 - (8 * r + c)) % 2 =
          if median (extract (freq img)) < freq img (1 + r) (1 + c) then 1 else 0) ∧
      (∀ freq' : Image → Nat → Nat → K,
        (∀ r c, (r, c) ≠ (0, 0) → freq' img r c = freq img r c) →
        PerceptionHash freq' img = .ok pHash) := by
  have hlen : (extract (freq img)).length = 64 := by
    rw [extract_eq, List.length_map, List.length_range]
  have hok : ∀ f : Image → Nat → Nat → K,
      PerceptionHash f img = .ok ⟨threshold (extract (f img))⟩ := by
    intro f
    simp [PerceptionHash, hw, hh]
  obtain ⟨hlt, hbit⟩ := threshold_fold
    (fun c => median (extract (freq img)) < c) (extract (freq img))
  rw [hlen] at hlt hbit
  refine ⟨_, hok freq, hlt, hlen, ?_, ?_, ?_⟩
  · rw [lowFrequencyBlock_eq, List.mem_map]
    rintro ⟨k, -, hk⟩
    simp only [Prod.mk.injEq] at hk
    omega
  · intro r c hr hc
    have := hbit (8 * r + c) _ (extract_getElem? (freq img) r c hr hc)
    simpa [threshold] using this
  · intro freq' hfreq
    rw [hok freq', extract_congr (freq img) (freq' img)]
    intro r c hr _ _ _
    apply hfreq
    intro h0
    simp only [Prod.mk.injEq] at h0
    omega

/-- Witness for C7: a 2×1 image whose frequency matrix has the entry `r - c` at row
`r`, column `c`. -/
theorem PerceptionHash_median_bits_witness :
    ∃ pHash, PerceptionHash (fun _ r c => (r : ℚ) - c) ⟨2, 1, [(255, 0, 0), (0, 0, 255)]⟩
        = .ok pHash ∧
      pHash.hash < 2 ^ 64 ∧
      (extract (fun r c => (r : ℚ) - c)).length = 64 ∧
      (0, 0) ∉ lowFrequencyBlock ∧
      (∀ r c, r < 8 → c < 8 →
        pHash.hash / 2 ^ (63 - (8 * r + c)) % 2 =
          if median (extract (fun r c => (r : ℚ) - c)) < ((1 + r : Nat) : ℚ) - (1 + c : Nat)
          then 1 else 0) ∧
      (∀ freq' : Image → Nat → Nat → ℚ,
        (∀ r c, (r, c) ≠ (0, 0) →
          freq' ⟨2, 1, [(255, 0, 0), (0, 0, 255)]⟩ r c = (r : ℚ) - c) →
        PerceptionHash freq' ⟨2, 1, [(255, 0, 0), (0, 0, 255)]⟩ = .ok pHash) :=
  PerceptionHash_median_bits (fun _ r c => (r : ℚ) - c) ⟨2, 1, [(255, 0, 0), (0, 0, 255)]⟩
    (by decide) (by decide)

/-! ## The hasher of the specification: a uniform brightness offset -/

theorem cos_sum_telescope (d : ℝ) (n : ℕ) :
    2 * Real.sin (d / 2) * (Finset.sum (Finset.range n) fun x => Real.cos (d / 2 + x * d)) =
      Real.sin (n * d) := by
  induction n with
  | zero => simp
  | succ n ih =>
    rw [Finset.sum_range_succ, mul_add, ih]
    have h1 : Real.sin (((n + 1 : ℕ) : ℝ) * d) = Real.sin ((d / 2 + n * d) + d / 2) := by
      congr 1
      push_cast
      ring
    have h2 : Real.sin ((n : ℝ) * d) = Real.sin ((d / 2 + n * d) - d / 2) := by
      congr 1
      ring
    rw [h1, h2, Real.sin_add, Real.sin_sub]
    ring

theorem dct_basis_sum (u : ℕ) (hu : 0 < u) (hu' : u < 64) :
    (Finset.sum (Finset.range 32) fun x : ℕ =>
      Real.cos (Real.pi * (2 * (x : ℝ) + 1) * (u : ℝ) / 64)) = 0 := by
  have hd := cos_sum_telescope (Real.pi * u / 32) 32
  have hsin0 : Real.sin (((32 : ℕ) : ℝ) * (Real.pi * u / 32)) = 0 := by
    have : ((32 : ℕ) : ℝ) * (Real.pi * u / 32) = (u : ℝ) * Real.pi := by
      push_cast
      ring
    rw [this]
    exact Real.sin_nat_mul_pi u
  have hpos : 0 < Real.sin (Real.pi * u / 32 / 2) := by
    apply Real.sin_pos_of_pos_of_lt_pi
    · have : (0 : ℝ) < u := by exact_mod_cast hu
      positivity
    · have hlt : (u : ℝ) < 64 := by exact_mod_cast hu'
      have hpi := Real.pi_pos
      have : Real.pi * u / 32 / 2 = Real.pi * (u / 64) := by ring
      rw [this]
      have : (u : ℝ) / 64 < 1 := by
        rw [div_lt_one (by norm_num)]
        exact hlt
      nlinarith
  rw [hsin0] at hd
  have hsum : (Finset.sum (Finset.range 32) fun x : ℕ =>
      Real.cos (Real.pi * u / 32 / 2 + x * (Real.pi * u / 32))) = 0 := by
    rcases mul_eq_zero.1 hd with h | h
    · rcases mul_eq_zero.1 h with h2 | h2
      · norm_num at h2
      · exact absurd h2 (ne_of_gt hpos)
    · exact h
  rw [← hsum]
  apply Finset.sum_congr rfl
  intro x _
  congr 1
  ring

theorem dct_add_const (M : Nat → Nat → ℝ) (k : ℝ) (u v : Nat) (hu : 0 < u) (hu' : u < 64) :
    dct (fun y x => M y x + k) u v = dct M u v := by
  unfold dct
  have hsplit : ∀ y x : ℕ,
      (M y x + k) * (Real.cos (Real.pi * (2 * (y : ℝ) + 1) * (u : ℝ) / 64) *
        Real.cos (Real.pi * (2 * (x : ℝ) + 1) * (v : ℝ) / 64)) =
      M y x * (Real.cos (Real.pi * (2 * (y : ℝ) + 1) * (u : ℝ) / 64) *
        Real.cos (Real.pi * (2 * (x : ℝ) + 1) * (v : ℝ) / 64)) +
      Real.cos (Real.pi * (2 * (y : ℝ) + 1) * (u : ℝ) / 64) *
        (k * Real.cos (Real.pi * (2 * (x : ℝ) + 1) * (v : ℝ) / 64)) := by
    intro y x
    ring
  simp only [hsplit, Finset.sum_add_distrib, ← Finset.mul_sum]
  rw [← Finset.sum_mul, dct_basis_sum u hu hu', zero_mul, add_zero]

theorem luminance_add (r g b c : Nat) :
    luminance (r + c, g + c, b + c) = luminance (r, g, b) + c := by
  simp only [luminance]
  push_cast
  ring

theorem pixel_brighten (img : Image) (c x y : Nat)
    (hgrid : img.samples.length = img.width * img.height)
    (hclip : ∀ s ∈ img.samples, s.1 + c ≤ 255 ∧ s.2.1 + c ≤ 255 ∧ s.2.2 + c ≤ 255)
    (hx : x < img.width) (hy : y < img.height) :
    luminance (pixel (brighten c img) x y) = luminance (pixel img x y) + c := by
  have hidx : y * img.width + x < img.samples.length := by
    rw [hgrid]
    calc y * img.width + x < y * img.width + img.width := by omega
      _ = (y + 1) * img.width := by ring
      _ ≤ img.height * img.width := Nat.mul_le_mul_right _ hy
      _ = img.width * img.height := Nat.mul_comm _ _
  have hmem : img.samples[y * img.width + x] ∈ img.samples := List.getElem_mem _
  obtain ⟨h1, h2, h3⟩ := hclip _ hmem
  have hpix : pixel img x y = img.samples[y * img.width + x] := by
    simp [pixel, List.getD_eq_getElem?_getD, List.getElem?_eq_getElem hidx]
  have hpix' : pixel (brighten c img) x y =
      ((img.samples[y * img.width + x]).1 + c, (img.samples[y * img.width + x]).2.1 + c,
        (img.samples[y * img.width + x]).2.2 + c) := by
    simp [pixel, brighten, List.getD_eq_getElem?_getD, List.getElem?_eq_getElem hidx,
      Nat.min_eq_right h1, Nat.min_eq_right h2, Nat.min_eq_right h3]
  rw [hpix', hpix, luminance_add]

theorem lerp_add (t a b k : ℝ) : lerp t (a + k) (b + k) = lerp t a b + k := by
  simp only [lerp]
  ring

theorem resized_brighten (img : Image) (c : Nat) (hw : img.width ≠ 0) (hh : img.height ≠ 0)
    (hgrid : img.samples.length = img.width * img.height)
    (hclip : ∀ s ∈ img.samples, s.1 + c ≤ 255 ∧ s.2.1 + c ≤ 255 ∧ s.2.2 + c ≤ 255)
    (r k : Nat) : resized (brighten c img) r k = resized img r k + c := by
  have hx : ∀ n : Nat, min n (img.width - 1) < img.width := fun n => by
    have := Nat.min_le_right n (img.width - 1)
    omega
  have hy : ∀ n : Nat, min n (img.height - 1) < img.height := fun n => by
    have := Nat.min_le_right n (img.height - 1)
    omega
  have hwid : (brighten c img).width = img.width := rfl
  have hhei : (brighten c img).height = img.height := rfl
  simp only [resized, hwid, hhei, pixel_brighten img c _ _ hgrid hclip (hx _) (hy _), lerp_add]

theorem frequencyMatrix_brighten (img : Image) (c : Nat) (hw : img.width ≠ 0)
    (hh : img.height ≠ 0) (hgrid : img.samples.length = img.width * img.height)
    (hclip : ∀ s ∈ img.samples, s.1 + c ≤ 255 ∧ s.2.1 + c ≤ 255 ∧ s.2.2 + c ≤ 255)
    (u v : Nat) (hu : 0 < u) (hu' : u < 64) :
    frequencyMatrix (brighten c img) u v = frequencyMatrix img u v := by
  have hfun : resized (brighten c img) = fun y x => resized img y x + (c : ℝ) := by
    funext y x
    exact resized_brighten img c hw hh hgrid hclip y x
  rw [frequencyMatrix, hfun, dct_add_const _ _ _ _ hu hu']
  rfl

/-- Claim C8 (hasher modelled from the spec): for every image of non-zero area whose
sample grid is complete, and every offset `c` that clips no sample, the image with `c`
added to every colour sample has the same fingerprint as the image itself, and
`imagePHash` renders the same string for both. -/
theorem PerceptionHash_brightness_invariant (img : Image) (c : Nat)
    (hw : img.width ≠ 0) (hh : img.height ≠ 0)
    (hgrid : img.samples.length = img.width * img.height)
    (hclip : ∀ s ∈ img.samples, s.1 + c ≤ 255 ∧ s.2.1 + c ≤ 255 ∧ s.2.2 + c ≤ 255) :
    (∃ pHash, PerceptionHash frequencyMatrix img = .ok pHash ∧
      PerceptionHash frequencyMatrix (brighten c img) = .ok pHash) ∧
    ∀ (Decode : Nat → Reader → Except GoError Image × Nat) (file file' : Reader)
      (w w' : World),
      (Decode w.lib file).1 = .ok img → (Decode w'.lib file').1 = .ok (brighten c img) →
      (imagePHash Decode (pureCall (PerceptionHash frequencyMatrix)) file' w').1 =
        (imagePHash Decode (pureCall (PerceptionHash frequencyMatrix)) file w).1 := by
  have hext : extract (frequencyMatrix (brighten c img)) = extract (frequencyMatrix img) := by
    apply extract_congr
    intro u v hu1 hu8 _ _
    exact frequencyMatrix_brighten img c hw hh hgrid hclip u v (by omega) (by omega)
  have hok : PerceptionHash frequencyMatrix img =
      .ok ⟨threshold (extract (frequencyMatrix img))⟩ := by
    simp [PerceptionHash, hw, hh]
  have hok' : PerceptionHash frequencyMatrix (brighten c img) =
      .ok ⟨threshold (extract (frequencyMatrix img))⟩ := by
    have hwid : (brighten c img).width = img.width := rfl
    have hhei : (brighten c img).height = img.height := rfl
    simp [PerceptionHash, hwid, hhei, hw, hh, hext]
  refine ⟨⟨_, hok, hok'⟩, ?_⟩
  intro Decode file file' w w' hdec hdec'
  rw [imagePHash_ok Decode _ file w img _ hdec (by simp only [pureCall]; exact hok),
    imagePHash_ok Decode _ file' w' (brighten c img) _ hdec'
      (by simp only [pureCall]; exact hok')]

/-- Witness for C8: a 2×1 image with samples `(10, 20, 30)` and `(200, 100, 50)`,
brightened by `5`. -/
theorem PerceptionHash_brightness_invariant_witness :
    ∃ pHash, PerceptionHash frequencyMatrix ⟨2, 1, [(10, 20, 30), (200, 100, 50)]⟩ = .ok pHash ∧
      PerceptionHash frequencyMatrix (brighten 5 ⟨2, 1, [(10, 20, 30), (200, 100, 50)]⟩) =
        .ok pHash :=
  (PerceptionHash_brightness_invariant ⟨2, 1, [(10, 20, 30), (200, 100, 50)]⟩ 5
    (by decide) (by decide) (by decide) (by decide)).1

end Imhash
